import Mathlib

/-!
# Verification of the ConcertedRMSD core (openmm-cpp-forces)

Shallow embedding of `ConcertedRMSDForceImpl` (initialize, computeForce,
updateParametersInContext) and of the owner class `ConcertedRMSDForce`.

Modelling conventions:
* C++ `double` arithmetic is modelled as exact arithmetic: the state machine
  and all intermediate quantities (centroids, correlation matrix, quaternion
  matrix, msd) live in `ℚ`; the square root and the final force vectors live
  in `ℝ`.
* The 4x4 symmetric eigensolver is the external third-party JAMA library
  (`jama/jama_eig.h`), not part of this repository.  Its two outputs that the
  code consumes — `values[3]` (the largest eigenvalue, JAMA returns
  eigenvalues in ascending order) and column 3 of `V` (the corresponding
  eigenvector) — enter `computeForce` as parameters `lam` and `q`; theorems
  about the evaluator carry explicit eigenpair/dominance hypotheses on them.
* A C++ method that throws leaves the object in whatever state it had reached
  at the throw; therefore the configuration operations return
  `Except (ImplError × ImplState) ImplState`, the error case carrying the
  (possibly partially mutated) state at the moment of the throw.
* Reads of `std::vector` at an out-of-range index are undefined behaviour;
  the recentering loops are modelled with the `Option`-valued `sumRefs`, and
  reaching such a read surfaces as the distinguished error `ImplError.oobAccess`.
* `ℚ` division by zero yields 0 (where C++ doubles would give NaN/Inf); the
  theorems below never rely on the junk value, they only use that no
  exception is raised there.
* The C++ method `ConcertedRMSDForceImpl::initialize` is modelled by the
  Lean function `configure` (the spec's name for the same operation).
-/

/-- A 3D vector with exact rational components, modelling `OpenMM::Vec3`. -/
structure Vec3 where
  x : ℚ
  y : ℚ
  z : ℚ
deriving DecidableEq

instance : Add Vec3 := ⟨fun a b => ⟨a.x + b.x, a.y + b.y, a.z + b.z⟩⟩

instance : Sub Vec3 := ⟨fun a b => ⟨a.x - b.x, a.y - b.y, a.z - b.z⟩⟩

/-- Componentwise division by a scalar, modelling `Vec3 operator/` (and `/=`). -/
def Vec3.divQ (v : Vec3) (c : ℚ) : Vec3 := ⟨v.x / c, v.y / c, v.z / c⟩

/-- Dot product, modelling `Vec3::dot`. -/
def Vec3.dot (a b : Vec3) : ℚ := a.x * b.x + a.y * b.y + a.z * b.z

@[simp] theorem Vec3.mk_add_mk (a b c d e f : ℚ) :
    (⟨a, b, c⟩ : Vec3) + ⟨d, e, f⟩ = ⟨a + d, b + e, c + f⟩ := rfl

@[simp] theorem Vec3.mk_sub_mk (a b c d e f : ℚ) :
    (⟨a, b, c⟩ : Vec3) - ⟨d, e, f⟩ = ⟨a - d, b - e, c - f⟩ := rfl

@[simp] theorem Vec3.divQ_mk (a b c q : ℚ) :
    (⟨a, b, c⟩ : Vec3).divQ q = ⟨a / q, b / q, c / q⟩ := rfl

@[simp] theorem Vec3.dot_mk (a b c d e f : ℚ) :
    (⟨a, b, c⟩ : Vec3).dot ⟨d, e, f⟩ = a * d + b * e + c * f := rfl

/-- Component access `v[i]` for `i = 0, 1, 2`, as used by the C++ code. -/
def Vec3.comp (v : Vec3) : Fin 3 → ℚ
  | 0 => v.x
  | 1 => v.y
  | 2 => v.z

/-- The owner object `ConcertedRMSDForce`: the caller-supplied full reference
position array and particle selection (`getReferencePositions`, `getParticles`). -/
structure ConcertedRMSDForce where
  referencePositions : List Vec3
  particles : List ℤ
deriving DecidableEq

/-- The error kinds the configuration operations can produce.  The first four
model the `OpenMMException`s thrown by the source; `oobAccess` marks an
out-of-bounds `std::vector` read (undefined behaviour in C++). -/
inductive ImplError where
  | sizeMismatch
  | illegalIndex (i : ℤ)
  | duplicateIndex (i : ℤ)
  | sizeChanged
  | oobAccess
deriving DecidableEq

/-- The exact exception message the C++ code attaches to each throw. -/
def ImplError.message : ImplError → String
  | .sizeMismatch =>
      "RMSDForce: Number of reference positions does not equal number of particles in the System"
  | .illegalIndex i => "ConcertedRMSDForce: Illegal particle index for RMSD: " ++ toString i
  | .duplicateIndex i => "ConcertedRMSDForce: Duplicated particle index for RMSD: " ++ toString i
  | .sizeChanged => "updateParametersInContext: The number of reference positions has changed"
  | .oobAccess => "undefined behaviour: out-of-bounds vector access"

/-- The mutable fields of `ConcertedRMSDForceImpl`: the stored selection, its
cached size, and the stored (recentered) reference positions. -/
structure ImplState where
  particles : List ℤ
  numParticles : ℕ
  referencePos : List Vec3
deriving DecidableEq

instance {ε α : Type} [DecidableEq ε] [DecidableEq α] : DecidableEq (Except ε α)
  | .error e, .error f =>
      if h : e = f then .isTrue (congrArg Except.error h)
      else .isFalse (fun hh => h (Except.error.inj hh))
  | .error _, .ok _ => .isFalse (fun hh => Except.noConfusion hh)
  | .ok _, .error _ => .isFalse (fun hh => Except.noConfusion hh)
  | .ok a, .ok b =>
      if h : a = b then .isTrue (congrArg Except.ok h)
      else .isFalse (fun hh => h (Except.ok.inj hh))

/-- Checked `std::vector` read `l[i]`: `some` exactly when `0 ≤ i < l.length`. -/
def getRef (l : List Vec3) (i : ℤ) : Option Vec3 :=
  if 0 ≤ i then l[i.toNat]? else none

/-- The accumulation loop `for (int i : sel) center += l[i];`, detecting an
out-of-bounds read as `none`. -/
def sumRefs (l : List Vec3) : List ℤ → Option Vec3
  | [] => some ⟨0, 0, 0⟩
  | i :: rest =>
      match getRef l i with
      | none => none
      | some v => (sumRefs l rest).map (fun t => v + t)

/-- The validation loop of `ConcertedRMSDForceImpl::initialize` (source lines
38–53): scan the selection in order, reporting the first index that is out of
`[0, systemSize)` and otherwise the first index already seen. -/
def validate (systemSize : ℕ) (seen : List ℤ) : List ℤ → Option ImplError
  | [] => none
  | i :: rest =>
      if i < 0 ∨ (systemSize : ℤ) ≤ i then some (.illegalIndex i)
      else if i ∈ seen then some (.duplicateIndex i)
      else validate systemSize (i :: seen) rest

/-- Models `ConcertedRMSDForceImpl::initialize` (the spec's `configure`):
size guard, copy of the owner's selection into the state, index validation,
then storage of the owner's reference positions with the selection centroid
subtracted from **every** entry.  Note the source assigns `particles` and
`numParticles` (lines 35–36) before the validation loop, so an index error
carries the partially mutated state. -/
def configure (systemSize : ℕ) (owner : ConcertedRMSDForce) (s : ImplState) :
    Except (ImplError × ImplState) ImplState :=
  if owner.referencePositions.length ≠ systemSize then
    .error (.sizeMismatch, s)
  else
    let s1 : ImplState :=
      { s with particles := owner.particles, numParticles := owner.particles.length }
    match validate systemSize [] owner.particles with
    | some e => .error (e, s1)
    | none =>
        match sumRefs owner.referencePositions owner.particles with
        | none => .error (.oobAccess, s1)
        | some total =>
            let center := total.divQ (s1.numParticles : ℚ)
            .ok { s1 with
                  referencePos := owner.referencePositions.map (fun p => p - center) }

/-- Models `ConcertedRMSDForceImpl::updateParametersInContext` (the spec's
`reconfigureKeepingReference`): reference-length guard, selection replacement
with the empty-selection default `0, …, referencePos.size() − 1`, then storage
of the owner's reference positions with the new selection centroid subtracted
from every entry.  No index validation is performed. -/
def updateParametersInContext (owner : ConcertedRMSDForce) (s : ImplState) :
    Except (ImplError × ImplState) ImplState :=
  if s.referencePos.length ≠ owner.referencePositions.length then
    .error (.sizeChanged, s)
  else
    let p : List ℤ :=
      if owner.particles = [] then (List.range s.referencePos.length).map Int.ofNat
      else owner.particles
    let s1 : ImplState :=
      { s with particles := p, numParticles := p.length,
               referencePos := owner.referencePositions }
    match sumRefs s1.referencePos p with
    | none => .error (.oobAccess, s1)
    | some total =>
        let center := total.divQ (p.length : ℚ)
        .ok { s1 with referencePos := s1.referencePos.map (fun q => q - center) }

/-- Unchecked `std::vector` read `l[i]`, as performed by `computeForce`, which
per the spec is only invoked on a validated state (every selected index is then
in range, so the default value is never produced there). -/
def atIdx (l : List Vec3) (i : ℤ) : Vec3 := (getRef l i).getD ⟨0, 0, 0⟩

/-- The centroid accumulation loop of `computeForce` (source lines 69–71). -/
def sumAt (l : List Vec3) (sel : List ℤ) : Vec3 :=
  sel.foldl (fun a i => a + atIdx l i) ⟨0, 0, 0⟩

/-- The centroid of the current positions restricted to the selection
(source lines 69–72). -/
def evalCenter (s : ImplState) (pos : List Vec3) : Vec3 :=
  (sumAt pos s.particles).divQ (s.numParticles : ℚ)

/-- `centeredPos[k]` for the particle with full-system index `i = particles[k]`
(source lines 73–75). -/
def centeredAt (s : ImplState) (pos : List Vec3) (i : ℤ) : Vec3 :=
  atIdx pos i - evalCenter s pos

/-- The correlation matrix `R` (source lines 79–85):
`R[i][j] = Σ_k centeredPos[k][i] * referencePos[particles[k]][j]`. -/
def corrR (s : ImplState) (pos : List Vec3) (i j : Fin 3) : ℚ :=
  (s.particles.map (fun idx =>
    (centeredAt s pos idx).comp i * (atIdx s.referencePos idx).comp j)).sum

/-- The 4x4 quaternion matrix `F` (source lines 89–108). -/
def Fmat (s : ImplState) (pos : List Vec3) : Matrix (Fin 4) (Fin 4) ℚ :=
  let R := corrR s pos
  !![R 0 0 + R 1 1 + R 2 2, R 1 2 - R 2 1, R 2 0 - R 0 2, R 0 1 - R 1 0;
     R 1 2 - R 2 1, R 0 0 - R 1 1 - R 2 2, R 0 1 + R 1 0, R 0 2 + R 2 0;
     R 2 0 - R 0 2, R 0 1 + R 1 0, -(R 0 0) + R 1 1 - R 2 2, R 1 2 + R 2 1;
     R 0 1 - R 1 0, R 0 2 + R 2 0, R 1 2 + R 2 1, -(R 0 0) - R 1 1 + R 2 2]

/-- The quantity `sum` of source lines 120–124:
`Σ_k (‖centeredPos[k]‖² + ‖referencePos[particles[k]]‖²)`. -/
def sumSq (s : ImplState) (pos : List Vec3) : ℚ :=
  (s.particles.map (fun idx =>
    (centeredAt s pos idx).dot (centeredAt s pos idx) +
      (atIdx s.referencePos idx).dot (atIdx s.referencePos idx))).sum

/-- `msd = (sum − 2·values[3]) / numParticles` (source line 125), with the
eigensolver output `values[3]` supplied as the parameter `lam`. -/
def msd (s : ImplState) (pos : List Vec3) (lam : ℚ) : ℚ :=
  (sumSq s pos - 2 * lam) / (s.numParticles : ℚ)

/-- The current-structure term `Σ‖centeredCurrent‖²` of the spec's RMSD
formula, separated out of `sumSq` for the statement of C5. -/
def sumCurSq (s : ImplState) (pos : List Vec3) : ℚ :=
  (s.particles.map (fun idx => (centeredAt s pos idx).dot (centeredAt s pos idx))).sum

/-- The reference-structure term `Σ‖centeredReference‖²` of the spec's RMSD
formula, separated out of `sumSq` for the statement of C5. -/
def sumRefSq (s : ImplState) : ℚ :=
  (s.particles.map (fun idx =>
    (atIdx s.referencePos idx).dot (atIdx s.referencePos idx))).sum

/-- The rotation matrix `U` built from the quaternion `q` by the standard
quaternion-to-matrix formula (source lines 135–142). -/
def rotU (q : Fin 4 → ℚ) : Matrix (Fin 3) (Fin 3) ℚ :=
  !![q 0 * q 0 + q 1 * q 1 - q 2 * q 2 - q 3 * q 3, 2 * (q 1 * q 2 - q 0 * q 3),
       2 * (q 1 * q 3 + q 0 * q 2);
     2 * (q 1 * q 2 + q 0 * q 3), q 0 * q 0 - q 1 * q 1 + q 2 * q 2 - q 3 * q 3,
       2 * (q 2 * q 3 - q 0 * q 1);
     2 * (q 1 * q 3 - q 0 * q 2), 2 * (q 2 * q 3 + q 0 * q 1),
       q 0 * q 0 - q 1 * q 1 - q 2 * q 2 + q 3 * q 3]

/-- The rotated reference position `rotatedRef` (source lines 148–150).  Note
the source applies the **transpose** of the stored `U` array — component `c`
is `Σ_r U[r][c] * p[r]` — i.e. the rotation associated with the conjugate
quaternion; this definition reproduces that exactly. -/
def rotatedRef (q : Fin 4 → ℚ) (p : Vec3) : Vec3 :=
  let U := rotU q
  ⟨U 0 0 * p.x + U 1 0 * p.y + U 2 0 * p.z,
   U 0 1 * p.x + U 1 1 * p.y + U 2 1 * p.z,
   U 0 2 * p.x + U 1 2 * p.y + U 2 2 * p.z⟩

/-- A 3D vector with real components: the force values produced by
`computeForce` involve the (irrational) square root `rmsd`. -/
structure RVec3 where
  x : ℝ
  y : ℝ
  z : ℝ

noncomputable def Vec3.toR (v : Vec3) : RVec3 := ⟨(v.x : ℝ), (v.y : ℝ), (v.z : ℝ)⟩

noncomputable def RVec3.neg (v : RVec3) : RVec3 := ⟨-v.x, -v.y, -v.z⟩

noncomputable def RVec3.divR (v : RVec3) (c : ℝ) : RVec3 := ⟨v.x / c, v.y / c, v.z / c⟩

/-- The assignment `forces[particles[i]] = value`; a negative index is kept as
a no-op here (the C++ would be undefined behaviour; under the configured-state
hypotheses of the theorems below every written index is in range). -/
def setIdx (l : List RVec3) (i : ℤ) (v : RVec3) : List RVec3 :=
  if 0 ≤ i then l.set i.toNat v else l

/-- The force value written for the particle with full-system index `idx`
(source line 151): `-(centeredPos[i] - rotatedRef) / (rmsd*numParticles)`. -/
noncomputable def forceVal (s : ImplState) (pos : List Vec3) (lam : ℚ)
    (q : Fin 4 → ℚ) (idx : ℤ) : RVec3 :=
  ((centeredAt s pos idx - rotatedRef q (atIdx s.referencePos idx)).toR).neg.divR
    (Real.sqrt ((msd s pos lam : ℚ) : ℝ) * (s.numParticles : ℝ))

/-- Models `ConcertedRMSDForceImpl::computeForce` (the spec's `evaluate`).
`forces` is the caller-supplied in/out force array; `lam` and `q` are the two
outputs of the external JAMA eigensolver that the source consumes
(`values[3]`, the largest eigenvalue, and column 3 of `V`).  Returns the pair
(energy returned, final force array): on `msd < 1e-20` the source returns `0`
immediately, leaving `forces` untouched (source lines 126–130); otherwise it
returns `sqrt(msd)` after writing the per-particle forces (lines 131–153). -/
noncomputable def computeForce (s : ImplState) (pos : List Vec3)
    (forces : List RVec3) (lam : ℚ) (q : Fin 4 → ℚ) : ℝ × List RVec3 :=
  if msd s pos lam < 1e-20 then (0, forces)
  else
    (Real.sqrt ((msd s pos lam : ℚ) : ℝ),
     s.particles.foldl (fun fs idx => setIdx fs idx (forceVal s pos lam q idx)) forces)

/-- The matrix `F` viewed over `ℝ`, for stating true eigenvalue dominance. -/
noncomputable def FmatR (s : ImplState) (pos : List Vec3) :
    Matrix (Fin 4) (Fin 4) ℝ :=
  (Fmat s pos).map (fun a => (a : ℝ))

/-- `mu` is a (real) eigenvalue of the 4x4 matrix `M`. -/
def IsEigenvalueR (M : Matrix (Fin 4) (Fin 4) ℝ) (mu : ℝ) : Prop :=
  ∃ v : Fin 4 → ℝ, v ≠ 0 ∧ M.mulVec v = mu • v

/-- `lam` is the largest (real) eigenvalue of the 4x4 matrix `M`. -/
def IsMaxEigenvalue (M : Matrix (Fin 4) (Fin 4) ℝ) (lam : ℝ) : Prop :=
  IsEigenvalueR M lam ∧ ∀ mu : ℝ, IsEigenvalueR M mu → mu ≤ lam

/-- Blank pre-configuration state. -/
def s0 : ImplState := ⟨[], 0, []⟩

/-- Witness owner A: two particles, reference `(2,0,0), (0,0,0)`, both selected. -/
def ownerA : ConcertedRMSDForce := ⟨[⟨2, 0, 0⟩, ⟨0, 0, 0⟩], [0, 1]⟩

/-- The state `configure 2 ownerA s0` produces: centroid `(1,0,0)` subtracted. -/
def stA : ImplState := ⟨[0, 1], 2, [⟨1, 0, 0⟩, ⟨-1, 0, 0⟩]⟩

/-- Current positions identical to owner A's reference: a coincident pair. -/
def posA : List Vec3 := [⟨2, 0, 0⟩, ⟨0, 0, 0⟩]

/-- The eigenvector of `Fmat stA posA` for its largest eigenvalue 2. -/
def qA : Fin 4 → ℚ := ![1, 0, 0, 0]

/-- A caller-supplied force array with a nonzero entry at selected index 0. -/
noncomputable def finA : List RVec3 := [⟨1, 2, 3⟩, ⟨0, 0, 0⟩]

/-- Witness owner B: two particles, reference `(1,0,0), (-1,0,0)` (already
centered), both selected. -/
def ownerB : ConcertedRMSDForce := ⟨[⟨1, 0, 0⟩, ⟨-1, 0, 0⟩], [0, 1]⟩

/-- The state `configure 2 ownerB s0` produces (centroid is zero). -/
def stB : ImplState := ⟨[0, 1], 2, [⟨1, 0, 0⟩, ⟨-1, 0, 0⟩]⟩

/-- Current positions for owner B: the reference rotated about z by the angle
with `cos θ = -7/25`, `sin θ = 24/25`, then scaled by `25/2`; gives
`msd = 529/4`, i.e. `rmsd = 23/2`, with a rational dominant eigenpair. -/
def posB : List Vec3 := [⟨-7/2, 12, 0⟩, ⟨7/2, -12, 0⟩]

/-- The unit eigenvector of `Fmat stB posB` for its largest eigenvalue 25. -/
def qB : Fin 4 → ℚ := ![3/5, 0, 0, -4/5]


/-- Owner for the C2 counterexample: reference `(2,0,0), (5,5,5)`, selection `[0]`. -/
def ownerD : ConcertedRMSDForce := ⟨[⟨2, 0, 0⟩, ⟨5, 5, 5⟩], [0]⟩

/-- The state `configure 2 ownerD s0` produces: **both** entries shifted by the
selection centroid `(2,0,0)`, including the unselected index 1. -/
def stD : ImplState := ⟨[0], 1, [⟨0, 0, 0⟩, ⟨3, 5, 5⟩]⟩

/-- Owner for the C3/C6 illegal-index instances: selection `[2]` in a
1-particle system. -/
def ownerC : ConcertedRMSDForce := ⟨[⟨0, 0, 0⟩], [2]⟩

/-- A pre-existing state, to observe mutation on a failing reconfiguration. -/
def sC0 : ImplState := ⟨[5], 1, [⟨9, 9, 9⟩]⟩

/-- The partially mutated state carried by the illegal-index throw of
`configure 1 ownerC sC0`: the selection and count were already overwritten. -/
def stC1 : ImplState := ⟨[2], 1, [⟨9, 9, 9⟩]⟩

/-- Owner for the C6 duplicate-index instance: selection `[1, 1]`. -/
def ownerJ : ConcertedRMSDForce := ⟨[⟨0, 0, 0⟩, ⟨1, 1, 1⟩], [1, 1]⟩

/-- Owner for the C9 counterexample: an empty selection. -/
def ownerE : ConcertedRMSDForce := ⟨[⟨0, 0, 0⟩], []⟩

/-- The state `configure 1 ownerE s0` produces without any error: the stored
selection is empty (size 0). -/
def stE : ImplState := ⟨[], 0, [⟨0, 0, 0⟩]⟩

/-- Owner for the C10 instances: new selection `[0, 0, 5]` (duplicated and
out-of-range indices) over a 1-entry reference. -/
def ownerF : ConcertedRMSDForce := ⟨[⟨4, 4, 4⟩], [0, 0, 5]⟩

/-- A configured state with a 1-entry stored reference. -/
def sF : ImplState := ⟨[0], 1, [⟨0, 0, 0⟩]⟩

/-- Owner with the duplicated but in-range selection `[0, 0]`. -/
def ownerK : ConcertedRMSDForce := ⟨[⟨4, 4, 4⟩], [0, 0]⟩

/-- Owner for the C7 witness: empty selection, two reference positions. -/
def ownerG : ConcertedRMSDForce := ⟨[⟨1, 0, 0⟩, ⟨3, 0, 0⟩], []⟩

/-- A configured state with a 2-entry stored reference. -/
def sG : ImplState := ⟨[0], 1, [⟨0, 0, 0⟩, ⟨0, 0, 0⟩]⟩

theorem validate_eq_none_iff (n : ℕ) (l : List ℤ) :
    ∀ seen, validate n seen l = none ↔
      ((∀ i ∈ l, 0 ≤ i ∧ i < (n : ℤ)) ∧ l.Nodup ∧ ∀ i ∈ l, i ∉ seen) := by
  induction l with
  | nil => intro seen; simp [validate]
  | cons a rest ih =>
    intro seen
    simp only [validate]
    split_ifs with hbad hseen
    · simp only [reduceCtorEq, false_iff]
      rintro ⟨hall, -, -⟩
      rcases hbad with h | h
      · exact absurd (hall a (by simp)).1 (by omega)
      · exact absurd (hall a (by simp)).2 (by omega)
    · simp only [reduceCtorEq, false_iff]
      rintro ⟨-, -, hnot⟩
      exact hnot a (by simp) hseen
    · rw [ih (a :: seen)]
      push_neg at hbad
      constructor
      · rintro ⟨hall, hnd, hns⟩
        refine ⟨?_, ?_, ?_⟩
        · intro i hi
          rcases List.mem_cons.mp hi with rfl | hi
          · exact ⟨hbad.1, hbad.2⟩
          · exact hall i hi
        · refine List.nodup_cons.mpr ⟨fun hmem => ?_, hnd⟩
          exact hns a hmem (by simp)
        · intro i hi
          rcases List.mem_cons.mp hi with rfl | hi
          · exact hseen
          · intro hmem
            exact hns i hi (by simp [hmem])
      · rintro ⟨hall, hnd, hns⟩
        refine ⟨fun i hi => hall i (by simp [hi]), (List.nodup_cons.mp hnd).2, ?_⟩
        intro i hi hmem
        rcases List.mem_cons.mp hmem with rfl | hmem2
        · exact (List.nodup_cons.mp hnd).1 hi
        · exact hns i (by simp [hi]) hmem2

theorem validate_illegal (n : ℕ) (l : List ℤ) :
    ∀ seen i, validate n seen l = some (.illegalIndex i) →
      i ∈ l ∧ (i < 0 ∨ (n : ℤ) ≤ i) := by
  induction l with
  | nil => intro seen i h; simp [validate] at h
  | cons a rest ih =>
    intro seen i h
    simp only [validate] at h
    split_ifs at h with hbad hseen
    · obtain rfl : a = i := by simpa using h
      exact ⟨by simp, hbad⟩
    · simp at h
    · obtain ⟨hi, hr⟩ := ih (a :: seen) i h
      exact ⟨by simp [hi], hr⟩

theorem validate_dup (n : ℕ) (l : List ℤ) :
    ∀ seen i, validate n seen l = some (.duplicateIndex i) →
      i ∈ l ∧ (i ∈ seen ∨ ¬ l.Nodup) := by
  induction l with
  | nil => intro seen i h; simp [validate] at h
  | cons a rest ih =>
    intro seen i h
    simp only [validate] at h
    split_ifs at h with hbad hseen
    · simp at h
    · obtain rfl : a = i := by simpa using h
      exact ⟨by simp, Or.inl hseen⟩
    · obtain ⟨hi, hr⟩ := ih (a :: seen) i h
      refine ⟨by simp [hi], ?_⟩
      rcases hr with hr | hr
      · rcases List.mem_cons.mp hr with rfl | hr
        · exact Or.inr (by simp [List.nodup_cons, hi])
        · exact Or.inl hr
      · exact Or.inr (by simp [List.nodup_cons]; intro; exact hr)

theorem validate_some_kinds (n : ℕ) (l : List ℤ) :
    ∀ seen e, validate n seen l = some e →
      (∃ i, e = .illegalIndex i) ∨ (∃ i, e = .duplicateIndex i) := by
  induction l with
  | nil => intro seen e h; simp [validate] at h
  | cons a rest ih =>
    intro seen e h
    simp only [validate] at h
    split_ifs at h with hbad hseen
    · exact Or.inl ⟨a, by simpa using h.symm⟩
    · exact Or.inr ⟨a, by simpa using h.symm⟩
    · exact ih (a :: seen) e h

theorem getRef_eq_none {l : List Vec3} {i : ℤ} (h : i < 0 ∨ (l.length : ℤ) ≤ i) :
    getRef l i = none := by
  rcases h with h | h
  · simp [getRef, not_le.mpr h]
  · have : 0 ≤ i := le_trans (by positivity) h
    simp only [getRef, if_pos this]
    exact List.getElem?_eq_none (by omega)

theorem getRef_eq_some {l : List Vec3} {i : ℤ} (h0 : 0 ≤ i)
    (hlt : i.toNat < l.length) : ∃ v, getRef l i = some v := by
  simp only [getRef, if_pos h0]
  exact ⟨l[i.toNat], List.getElem?_eq_some.mpr ⟨hlt, rfl⟩⟩

theorem sumRefs_eq_some {l : List Vec3} {sel : List ℤ}
    (h : ∀ i ∈ sel, 0 ≤ i ∧ i.toNat < l.length) :
    ∃ v, sumRefs l sel = some v := by
  induction sel with
  | nil => exact ⟨⟨0, 0, 0⟩, rfl⟩
  | cons a rest ih =>
    obtain ⟨w, hw⟩ := getRef_eq_some (h a (by simp)).1 (h a (by simp)).2
    obtain ⟨t, ht⟩ := ih (fun i hi => h i (by simp [hi]))
    exact ⟨w + t, by simp [sumRefs, hw, ht]⟩

theorem sumRefs_eq_none {l : List Vec3} {sel : List ℤ} {i : ℤ}
    (hi : i ∈ sel) (h : i < 0 ∨ (l.length : ℤ) ≤ i) :
    sumRefs l sel = none := by
  induction sel with
  | nil => simp at hi
  | cons a rest ih =>
    rcases List.mem_cons.mp hi with rfl | hi2
    · simp [sumRefs, getRef_eq_none h]
    · simp only [sumRefs]
      cases hga : getRef l a
      · rfl
      · simp [ih hi2]

theorem configure_eq_ok {n : ℕ} {owner : ConcertedRMSDForce} {s s' : ImplState}
    (h : configure n owner s = .ok s') :
    owner.referencePositions.length = n ∧
    validate n [] owner.particles = none ∧
    ∃ total, sumRefs owner.referencePositions owner.particles = some total ∧
      s' = ⟨owner.particles, owner.particles.length,
            owner.referencePositions.map
              (fun p => p - total.divQ (owner.particles.length : ℚ))⟩ := by
  simp only [configure] at h
  split_ifs at h with hlen
  refine ⟨not_ne_iff.mp hlen, ?_⟩
  cases hval : validate n [] owner.particles with
  | some e => simp [hval] at h
  | none =>
    rw [hval] at h
    cases hsum : sumRefs owner.referencePositions owner.particles with
    | none => simp [hsum] at h
    | some total =>
      rw [hsum] at h
      obtain rfl := Except.ok.inj h
      exact ⟨rfl, total, rfl, rfl⟩

theorem configure_eq_error {n : ℕ} {owner : ConcertedRMSDForce} {s s' : ImplState}
    {e : ImplError} (h : configure n owner s = .error (e, s')) :
    (owner.referencePositions.length ≠ n ∧ e = .sizeMismatch ∧ s' = s) ∨
    (owner.referencePositions.length = n ∧ validate n [] owner.particles = some e ∧
      s' = { s with particles := owner.particles,
                    numParticles := owner.particles.length }) ∨
    (owner.referencePositions.length = n ∧ validate n [] owner.particles = none ∧
      sumRefs owner.referencePositions owner.particles = none ∧ e = .oobAccess ∧
      s' = { s with particles := owner.particles,
                    numParticles := owner.particles.length }) := by
  simp only [configure] at h
  split_ifs at h with hlen
  · obtain ⟨rfl, rfl⟩ := Prod.mk.inj (Except.error.inj h)
    exact Or.inl ⟨hlen, rfl, rfl⟩
  · cases hval : validate n [] owner.particles with
    | some e2 =>
      rw [hval] at h
      simp only at h
      obtain ⟨rfl, rfl⟩ := Prod.mk.inj (Except.error.inj h)
      exact Or.inr (Or.inl ⟨not_ne_iff.mp hlen, rfl, rfl⟩)
    | none =>
      rw [hval] at h
      cases hsum : sumRefs owner.referencePositions owner.particles with
      | none =>
        rw [hsum] at h
        simp only at h
        obtain ⟨rfl, rfl⟩ := Prod.mk.inj (Except.error.inj h)
        exact Or.inr (Or.inr ⟨not_ne_iff.mp hlen, rfl, rfl, rfl, rfl⟩)
      | some total => simp [hsum] at h

theorem update_eq_ok {owner : ConcertedRMSDForce} {s s' : ImplState}
    (h : updateParametersInContext owner s = .ok s') :
    s.referencePos.length = owner.referencePositions.length ∧
    ∃ p, p = (if owner.particles = []
              then (List.range s.referencePos.length).map Int.ofNat
              else owner.particles) ∧
    ∃ total, sumRefs owner.referencePositions p = some total ∧
      s' = ⟨p, p.length,
            owner.referencePositions.map (fun q => q - total.divQ (p.length : ℚ))⟩ := by
  by_cases hlen : s.referencePos.length = owner.referencePositions.length
  · refine ⟨hlen, _, rfl, ?_⟩
    simp only [updateParametersInContext, if_neg (not_ne_iff.mpr hlen)] at h
    cases hsum : sumRefs owner.referencePositions
        (if owner.particles = []
         then (List.range s.referencePos.length).map Int.ofNat
         else owner.particles) with
    | none => rw [hsum] at h; simp at h
    | some total =>
      rw [hsum] at h
      obtain rfl := Except.ok.inj h
      exact ⟨total, rfl, rfl⟩
  · rw [updateParametersInContext, if_pos hlen] at h
    simp at h

theorem update_eq_error {owner : ConcertedRMSDForce} {s s' : ImplState}
    {e : ImplError} (h : updateParametersInContext owner s = .error (e, s')) :
    (s.referencePos.length ≠ owner.referencePositions.length ∧
      e = .sizeChanged ∧ s' = s) ∨
    (s.referencePos.length = owner.referencePositions.length ∧ e = .oobAccess ∧
      ∃ p, p = (if owner.particles = []
                then (List.range s.referencePos.length).map Int.ofNat
                else owner.particles) ∧
        sumRefs owner.referencePositions p = none ∧
        s' = ⟨p, p.length, owner.referencePositions⟩) := by
  by_cases hlen : s.referencePos.length = owner.referencePositions.length
  · simp only [updateParametersInContext, if_neg (not_ne_iff.mpr hlen)] at h
    cases hsum : sumRefs owner.referencePositions
        (if owner.particles = []
         then (List.range s.referencePos.length).map Int.ofNat
         else owner.particles) with
    | none =>
      rw [hsum] at h
      simp only at h
      obtain ⟨rfl, rfl⟩ := Prod.mk.inj (Except.error.inj h)
      exact Or.inr ⟨hlen, rfl, _, rfl, hsum, rfl⟩
    | some total => simp [hsum] at h
  · simp only [updateParametersInContext, if_pos hlen] at h
    obtain ⟨rfl, rfl⟩ := Prod.mk.inj (Except.error.inj h)
    exact Or.inl ⟨hlen, rfl, rfl⟩

theorem length_setIdx (l : List RVec3) (i : ℤ) (v : RVec3) :
    (setIdx l i v).length = l.length := by
  unfold setIdx; split_ifs <;> simp

theorem foldl_setIdx_length (val : ℤ → RVec3) (l : List ℤ) (fs : List RVec3) :
    (l.foldl (fun acc idx => setIdx acc idx (val idx)) fs).length = fs.length := by
  induction l generalizing fs with
  | nil => rfl
  | cons a rest ih => simp [List.foldl_cons, ih, length_setIdx]

theorem foldl_setIdx_getElem? (val : ℤ → RVec3) (l : List ℤ) (fs : List RVec3) (j : ℕ) :
    (l.foldl (fun acc idx => setIdx acc idx (val idx)) fs)[j]? =
      if (j : ℤ) ∈ l ∧ j < fs.length then some (val (j : ℤ)) else fs[j]? := by
  induction l generalizing fs with
  | nil => simp
  | cons a rest ih =>
    rw [List.foldl_cons, ih, length_setIdx]
    by_cases hmem : (j : ℤ) ∈ rest
    · by_cases hj : j < fs.length
      · simp [hmem, hj, List.mem_cons]
      · have h1 : (setIdx fs a (val a))[j]? = none :=
          List.getElem?_eq_none (by rw [length_setIdx]; omega)
        have h2 : fs[j]? = none := List.getElem?_eq_none (by omega)
        simp [hmem, hj, h1, h2]
    · by_cases ha : a = (j : ℤ)
      · subst ha
        by_cases hj : j < fs.length
        · have : setIdx fs (j : ℤ) (val (j : ℤ)) = fs.set j (val (j : ℤ)) := by
            simp [setIdx]
          simp [hmem, hj, this, List.getElem?_set]
        · have hnone : fs[j]? = none := List.getElem?_eq_none (by omega)
          have : (setIdx fs (j : ℤ) (val (j : ℤ)))[j]? = none := by
            simp only [setIdx, Int.toNat_natCast]
            split_ifs
            · exact List.getElem?_eq_none (by simp; omega)
            · exact hnone
          simp [hmem, hj, this, hnone]
      · have heq : (setIdx fs a (val a))[j]? = fs[j]? := by
          unfold setIdx
          split_ifs with h0
          · refine List.getElem?_set_ne ?_
            omega
          · rfl
        have hcon : ¬((j : ℤ) ∈ a :: rest ∧ j < fs.length) := by
          rintro ⟨hc, -⟩
          rcases List.mem_cons.mp hc with hc1 | hc2
          · exact ha hc1.symm
          · exact hmem hc2
        rw [if_neg (fun hc => hmem hc.1), heq, if_neg hcon]

theorem configure_ok_invariants {n : ℕ} {owner : ConcertedRMSDForce} {s s' : ImplState}
    (h : configure n owner s = .ok s') :
    s'.numParticles = s'.particles.length ∧
    s'.particles.Nodup ∧
    (∀ i ∈ s'.particles, 0 ≤ i ∧ i < (n : ℤ)) ∧
    s'.referencePos.length = n := by
  obtain ⟨hlen, hval, total, hsum, rfl⟩ := configure_eq_ok h
  obtain ⟨hall, hnd, -⟩ := (validate_eq_none_iff n owner.particles []).mp hval
  exact ⟨rfl, hnd, hall, by simp [hlen]⟩

theorem confA_eval : configure 2 ownerA s0 = .ok stA := by
  simp [configure, validate, sumRefs, getRef, ownerA, s0, stA] <;> norm_num

theorem confB_eval : configure 2 ownerB s0 = .ok stB := by
  simp [configure, validate, sumRefs, getRef, ownerB, s0, stB] <;> norm_num

theorem msdA_eval : msd stA posA 2 = 0 := by
  simp [msd, sumSq, centeredAt, evalCenter, sumAt, atIdx, getRef, stA, posA] <;> norm_num

theorem msdB_eval : msd stB posB 25 = 529 / 4 := by
  simp [msd, sumSq, centeredAt, evalCenter, sumAt, atIdx, getRef, stB, posB] <;> norm_num

theorem corrA_eval : corrR stA posA = fun i j => !![(2 : ℚ), 0, 0; 0, 0, 0; 0, 0, 0] i j := by
  funext i j
  fin_cases i <;> fin_cases j <;>
    simp [corrR, centeredAt, evalCenter, sumAt, atIdx, getRef, Vec3.comp, stA, posA,
      Matrix.cons_val', Matrix.cons_val_zero, Matrix.cons_val_one, Matrix.head_cons,
      Matrix.empty_val', Matrix.cons_val_fin_one, Matrix.head_fin_const,
      Matrix.vecHead, Matrix.vecTail] <;> norm_num

theorem FmatA_eval : Fmat stA posA = !![2, 0, 0, 0; 0, 2, 0, 0; 0, 0, -2, 0; 0, 0, 0, -2] := by
  ext i j
  fin_cases i <;> fin_cases j <;>
    simp [Fmat, corrA_eval,
      Matrix.cons_val', Matrix.cons_val_zero, Matrix.cons_val_one, Matrix.head_cons,
      Matrix.empty_val', Matrix.cons_val_fin_one, Matrix.head_fin_const,
      Matrix.vecHead, Matrix.vecTail] <;> norm_num

theorem corrB_eval : corrR stB posB = fun i j => !![(-7 : ℚ), 0, 0; 24, 0, 0; 0, 0, 0] i j := by
  funext i j
  fin_cases i <;> fin_cases j <;>
    simp [corrR, centeredAt, evalCenter, sumAt, atIdx, getRef, Vec3.comp, stB, posB,
      Matrix.cons_val', Matrix.cons_val_zero, Matrix.cons_val_one, Matrix.head_cons,
      Matrix.empty_val', Matrix.cons_val_fin_one, Matrix.head_fin_const,
      Matrix.vecHead, Matrix.vecTail] <;> norm_num

theorem FmatB_eval :
    Fmat stB posB = !![-7, 0, 0, -24; 0, -7, 24, 0; 0, 24, 7, 0; -24, 0, 0, 7] := by
  ext i j
  fin_cases i <;> fin_cases j <;>
    simp [Fmat, corrB_eval,
      Matrix.cons_val', Matrix.cons_val_zero, Matrix.cons_val_one, Matrix.head_cons,
      Matrix.empty_val', Matrix.cons_val_fin_one, Matrix.head_fin_const,
      Matrix.vecHead, Matrix.vecTail] <;> norm_num

theorem FmatRA_eval :
    FmatR stA posA = !![2, 0, 0, 0; 0, 2, 0, 0; 0, 0, -2, 0; 0, 0, 0, -2] := by
  rw [FmatR, FmatA_eval]
  ext i j
  fin_cases i <;> fin_cases j <;>
    simp [Matrix.map_apply,
      Matrix.cons_val', Matrix.cons_val_zero, Matrix.cons_val_one, Matrix.head_cons,
      Matrix.empty_val', Matrix.cons_val_fin_one, Matrix.head_fin_const,
      Matrix.vecHead, Matrix.vecTail] <;> norm_num

theorem FmatRB_eval :
    FmatR stB posB = !![-7, 0, 0, -24; 0, -7, 24, 0; 0, 24, 7, 0; -24, 0, 0, 7] := by
  rw [FmatR, FmatB_eval]
  ext i j
  fin_cases i <;> fin_cases j <;>
    simp [Matrix.map_apply,
      Matrix.cons_val', Matrix.cons_val_zero, Matrix.cons_val_one, Matrix.head_cons,
      Matrix.empty_val', Matrix.cons_val_fin_one, Matrix.head_fin_const,
      Matrix.vecHead, Matrix.vecTail] <;> norm_num

theorem maxEigenA : IsMaxEigenvalue (FmatR stA posA) 2 := by
  rw [IsMaxEigenvalue, FmatRA_eval]
  constructor
  · refine ⟨![1, 0, 0, 0], ?_, ?_⟩
    · intro hz
      have h0 := congrFun hz 0
      norm_num at h0
    · funext i
      fin_cases i <;>
        simp [Matrix.mulVec, Matrix.dotProduct, Fin.sum_univ_four,
          Matrix.cons_val', Matrix.cons_val_zero, Matrix.cons_val_one, Matrix.head_cons,
          Matrix.empty_val', Matrix.cons_val_fin_one, Matrix.head_fin_const,
          Matrix.vecHead, Matrix.vecTail]
  · rintro mu ⟨v, hv, he⟩
    have e0 := congrFun he 0
    have e1 := congrFun he 1
    have e2 := congrFun he 2
    have e3 := congrFun he 3
    simp [Matrix.mulVec, Matrix.dotProduct, Fin.sum_univ_four,
      Matrix.cons_val', Matrix.cons_val_zero, Matrix.cons_val_one, Matrix.head_cons,
      Matrix.empty_val', Matrix.cons_val_fin_one, Matrix.head_fin_const,
      Matrix.vecHead, Matrix.vecTail] at e0 e1 e2 e3
    have h0 : (mu ^ 2 - 4) * v 0 = 0 := by
      rcases e0 with h | h
      · rw [← h]; ring
      · rw [h]; ring
    have h1 : (mu ^ 2 - 4) * v 1 = 0 := by
      rcases e1 with h | h
      · rw [← h]; ring
      · rw [h]; ring
    have h2 : (mu ^ 2 - 4) * v 2 = 0 := by linear_combination (2 - mu) * e2
    have h3 : (mu ^ 2 - 4) * v 3 = 0 := by linear_combination (2 - mu) * e3
    have hnz : v 0 ≠ 0 ∨ v 1 ≠ 0 ∨ v 2 ≠ 0 ∨ v 3 ≠ 0 := by
      by_contra hcon
      push_neg at hcon
      apply hv
      funext i
      fin_cases i <;> simp [hcon.1, hcon.2.1, hcon.2.2.1, hcon.2.2.2]
    have hmu : mu ^ 2 = 4 := by
      rcases hnz with hk | hk | hk | hk
      · rcases mul_eq_zero.mp h0 with hz | hz
        · linarith
        · exact absurd hz hk
      · rcases mul_eq_zero.mp h1 with hz | hz
        · linarith
        · exact absurd hz hk
      · rcases mul_eq_zero.mp h2 with hz | hz
        · linarith
        · exact absurd hz hk
      · rcases mul_eq_zero.mp h3 with hz | hz
        · linarith
        · exact absurd hz hk
    nlinarith [sq_nonneg (mu - 2)]

theorem maxEigenB : IsMaxEigenvalue (FmatR stB posB) 25 := by
  rw [IsMaxEigenvalue, FmatRB_eval]
  constructor
  · refine ⟨![3 / 5, 0, 0, -(4 / 5)], ?_, ?_⟩
    · intro hz
      have h0 := congrFun hz 0
      norm_num at h0
    · funext i
      fin_cases i <;>
        simp [Matrix.mulVec, Matrix.dotProduct, Fin.sum_univ_four,
          Matrix.cons_val', Matrix.cons_val_zero, Matrix.cons_val_one, Matrix.head_cons,
          Matrix.empty_val', Matrix.cons_val_fin_one, Matrix.head_fin_const,
          Matrix.vecHead, Matrix.vecTail] <;> norm_num
  · rintro mu ⟨v, hv, he⟩
    have e0 := congrFun he 0
    have e1 := congrFun he 1
    have e2 := congrFun he 2
    have e3 := congrFun he 3
    simp [Matrix.mulVec, Matrix.dotProduct, Fin.sum_univ_four,
      Matrix.cons_val', Matrix.cons_val_zero, Matrix.cons_val_one, Matrix.head_cons,
      Matrix.empty_val', Matrix.cons_val_fin_one, Matrix.head_fin_const,
      Matrix.vecHead, Matrix.vecTail] at e0 e1 e2 e3
    have h0 : (mu ^ 2 - 625) * v 0 = 0 := by linear_combination (7 - mu) * e0 + 24 * e3
    have h1 : (mu ^ 2 - 625) * v 1 = 0 := by linear_combination (7 - mu) * e1 - 24 * e2
    have h2 : (mu ^ 2 - 625) * v 2 = 0 := by linear_combination (-24) * e1 - (7 + mu) * e2
    have h3 : (mu ^ 2 - 625) * v 3 = 0 := by linear_combination 24 * e0 - (7 + mu) * e3
    have hnz : v 0 ≠ 0 ∨ v 1 ≠ 0 ∨ v 2 ≠ 0 ∨ v 3 ≠ 0 := by
      by_contra hcon
      push_neg at hcon
      apply hv
      funext i
      fin_cases i <;> simp [hcon.1, hcon.2.1, hcon.2.2.1, hcon.2.2.2]
    have hmu : mu ^ 2 = 625 := by
      rcases hnz with hk | hk | hk | hk
      · rcases mul_eq_zero.mp h0 with hz | hz
        · linarith
        · exact absurd hz hk
      · rcases mul_eq_zero.mp h1 with hz | hz
        · linarith
        · exact absurd hz hk
      · rcases mul_eq_zero.mp h2 with hz | hz
        · linarith
        · exact absurd hz hk
      · rcases mul_eq_zero.mp h3 with hz | hz
        · linarith
        · exact absurd hz hk
    nlinarith [sq_nonneg (mu - 25)]

theorem mulVecA_eval : (Fmat stA posA).mulVec qA = (2 : ℚ) • qA := by
  rw [FmatA_eval]
  funext i
  fin_cases i <;>
    simp [Matrix.mulVec, Matrix.dotProduct, Fin.sum_univ_four, qA,
      Matrix.cons_val', Matrix.cons_val_zero, Matrix.cons_val_one, Matrix.head_cons,
      Matrix.empty_val', Matrix.cons_val_fin_one, Matrix.head_fin_const,
      Matrix.vecHead, Matrix.vecTail]

theorem mulVecB_eval : (Fmat stB posB).mulVec qB = (25 : ℚ) • qB := by
  rw [FmatB_eval]
  funext i
  fin_cases i <;>
    simp [Matrix.mulVec, Matrix.dotProduct, Fin.sum_univ_four, qB,
      Matrix.cons_val', Matrix.cons_val_zero, Matrix.cons_val_one, Matrix.head_cons,
      Matrix.empty_val', Matrix.cons_val_fin_one, Matrix.head_fin_const,
      Matrix.vecHead, Matrix.vecTail] <;> norm_num

theorem sumSq_split (s : ImplState) (pos : List Vec3) :
    sumSq s pos = sumCurSq s pos + sumRefSq s := by
  simp only [sumSq, sumCurSq, sumRefSq]
  induction s.particles with
  | nil => simp
  | cons a rest ih => simp [ih]; ring

theorem computeForce_degenerate {s : ImplState} {pos : List Vec3}
    {forces : List RVec3} {lam : ℚ} {q : Fin 4 → ℚ}
    (hm : msd s pos lam < 1e-20) :
    computeForce s pos forces lam q = (0, forces) := by
  rw [computeForce, if_pos hm]

theorem computeForce_main {s : ImplState} {pos : List Vec3}
    {forces : List RVec3} {lam : ℚ} {q : Fin 4 → ℚ}
    (hm : ¬ msd s pos lam < 1e-20) :
    computeForce s pos forces lam q =
      (Real.sqrt ((msd s pos lam : ℚ) : ℝ),
       s.particles.foldl (fun fs idx => setIdx fs idx (forceVal s pos lam q idx)) forces) := by
  rw [computeForce, if_neg hm]

/-- C1, counterexample.  The claim says that whenever `msd < 1e-20` the
evaluator returns `rmsd = 0` **and a force array that is all-zero at selected
indices**.  The source (lines 126–130) returns `0` without writing the forces
array at all, so the output force at a selected index is whatever the caller
supplied.  Concretely: `stA` is the configured state produced by
`configure 2 ownerA s0`, the current positions `posA` coincide with the
reference (`msd = 0 < 1e-20`, with `2` genuinely the largest eigenvalue of `F`
and `qA` its eigenvector), the caller supplies force `(1,2,3)` at selected
index `0`, and the returned force array still holds `(1,2,3) ≠ 0` there. -/
theorem c1_counterexample :
    configure 2 ownerA s0 = .ok stA ∧
    (Fmat stA posA).mulVec qA = (2 : ℚ) • qA ∧
    IsMaxEigenvalue (FmatR stA posA) ((2 : ℚ) : ℝ) ∧
    msd stA posA 2 < 1e-20 ∧
    (0 : ℤ) ∈ stA.particles ∧
    (computeForce stA posA finA 2 qA).1 = 0 ∧
    ((computeForce stA posA finA 2 qA).2)[0]? ≠ some ⟨0, 0, 0⟩ := by
  have hm : msd stA posA 2 < 1e-20 := by rw [msdA_eval]; norm_num
  have hcf := @computeForce_degenerate stA posA finA 2 qA hm
  refine ⟨confA_eval, mulVecA_eval, ?_, hm, by simp [stA], by rw [hcf], ?_⟩
  · rw [show ((2 : ℚ) : ℝ) = 2 by norm_num]
    exact maxEigenA
  · rw [hcf]
    simp [finA]

/-- C1, amended: for every selection state and current-position array with
`msd < 1e-20`, `computeForce` returns `rmsd = 0` and leaves the force array
exactly as supplied by the caller (hence all-zero at selected indices whenever
the caller supplies zeros there); no exception is raised. -/
theorem c1_theorem (s : ImplState) (pos : List Vec3) (forces : List RVec3)
    (lam : ℚ) (q : Fin 4 → ℚ) (hm : msd s pos lam < 1e-20) :
    computeForce s pos forces lam q = (0, forces) :=
  computeForce_degenerate hm

/-- C1, witness: the amended theorem applied to the coincident pair `stA`,
`posA` with the caller-supplied array `finA`. -/
theorem c1_witness :
    msd stA posA 2 < 1e-20 ∧ computeForce stA posA finA 2 qA = (0, finA) :=
  ⟨by rw [msdA_eval]; norm_num,
   c1_theorem stA posA finA 2 qA (by rw [msdA_eval]; norm_num)⟩

/-- C2, counterexample.  The claim says reference coordinates outside the
selection are stored identical to the caller's values.  The source
(lines 60–61 and 169–170) subtracts the selection centroid from **every**
stored entry.  Concretely: `configure 2 ownerD s0` (selection `[0]`, centroid
`(2,0,0)`) stores `(3,5,5)` at the unselected index 1 where the caller
supplied `(5,5,5)`. -/
theorem c2_counterexample :
    configure 2 ownerD s0 = .ok stD ∧
    (1 : ℤ) ∉ ownerD.particles ∧
    stD.referencePos[1]? ≠ ownerD.referencePositions[1]? := by
  refine ⟨?_, by decide, ?_⟩
  · simp [configure, validate, sumRefs, getRef, ownerD, s0, stD] <;> norm_num
  · simp [stD, ownerD]

/-- C2, amended: after a successful `configure` or `updateParametersInContext`
the stored reference positions are the caller's array with the selection
centroid subtracted from **every** entry — selected and unselected alike (the
unselected entries are therefore translated, not retained verbatim; they
remain unused by the evaluator). -/
theorem c2_theorem (n : ℕ) (owner : ConcertedRMSDForce) (s : ImplState) :
    (∀ s', configure n owner s = .ok s' →
      ∃ total, sumRefs owner.referencePositions owner.particles = some total ∧
        s'.referencePos = owner.referencePositions.map
          (fun p => p - total.divQ (owner.particles.length : ℚ))) ∧
    (∀ s', updateParametersInContext owner s = .ok s' →
      ∃ p total, p = (if owner.particles = []
                      then (List.range s.referencePos.length).map Int.ofNat
                      else owner.particles) ∧
        sumRefs owner.referencePositions p = some total ∧
        s'.referencePos = owner.referencePositions.map
          (fun v => v - total.divQ (p.length : ℚ))) := by
  constructor
  · intro s' h
    obtain ⟨-, -, total, hsum, rfl⟩ := configure_eq_ok h
    exact ⟨total, hsum, rfl⟩
  · intro s' h
    obtain ⟨-, p, hp, total, hsum, rfl⟩ := update_eq_ok h
    exact ⟨p, total, hp, hsum, rfl⟩

/-- C2, witness: the amended theorem applied to `ownerD` (configure path,
centroid `(2,0,0)`) and to `ownerG` (update path with the empty-selection
default). -/
theorem c2_witness :
    (∃ total, sumRefs ownerD.referencePositions ownerD.particles = some total ∧
      stD.referencePos = ownerD.referencePositions.map
        (fun p => p - total.divQ (ownerD.particles.length : ℚ))) ∧
    (∃ p total, p = (if ownerG.particles = []
                     then (List.range sG.referencePos.length).map Int.ofNat
                     else ownerG.particles) ∧
      sumRefs ownerG.referencePositions p = some total ∧
      (⟨[0, 1], 2, [⟨-1, 0, 0⟩, ⟨1, 0, 0⟩]⟩ : ImplState).referencePos =
        ownerG.referencePositions.map (fun v => v - total.divQ (p.length : ℚ))) := by
  constructor
  · exact (c2_theorem 2 ownerD s0).1 stD
      (by simp [configure, validate, sumRefs, getRef, ownerD, s0, stD] <;> norm_num)
  · exact (c2_theorem 2 ownerG sG).2 ⟨[0, 1], 2, [⟨-1, 0, 0⟩, ⟨1, 0, 0⟩]⟩
      (by simp [updateParametersInContext, sumRefs, getRef, ownerG, sG, List.range_succ] <;>
        norm_num)

/-- C3, counterexample.  The claim says every configuration failure leaves the
stored selection, particle count and reference positions untouched.  The
source assigns `particles` and `numParticles` (lines 35–36) **before** the
index-validation loop, so an illegal-index failure has already overwritten
them.  Concretely: from the prior state `sC0` (selection `[5]`),
`configure 1 ownerC sC0` throws `illegalIndex 2` with the stored selection
already replaced by `[2]`. -/
theorem c3_counterexample :
    configure 1 ownerC sC0 = .error (.illegalIndex 2, stC1) ∧
    stC1.particles ≠ sC0.particles ∧
    stC1.numParticles = ownerC.particles.length ∧
    stC1.referencePos = sC0.referencePos := by
  refine ⟨?_, by decide, by decide, rfl⟩
  simp [configure, validate, ownerC, sC0, stC1]

/-- C3, amended: a size-mismatch failure of `configure` raises with the state
fully untouched; an illegal- or duplicate-index failure raises only after the
stored selection and particle count have been overwritten with the new
values, while the stored reference positions are unchanged on every failure
path. -/
theorem c3_theorem (n : ℕ) (owner : ConcertedRMSDForce) (s : ImplState) :
    (owner.referencePositions.length ≠ n →
      configure n owner s = .error (.sizeMismatch, s)) ∧
    (∀ e s', configure n owner s = .error (e, s') →
      s'.referencePos = s.referencePos) ∧
    (∀ i s', (configure n owner s = .error (.illegalIndex i, s') ∨
              configure n owner s = .error (.duplicateIndex i, s')) →
      s'.particles = owner.particles ∧ s'.numParticles = owner.particles.length) := by
  refine ⟨?_, ?_, ?_⟩
  · intro h
    rw [configure, if_pos h]
  · intro e s' h
    rcases configure_eq_error h with ⟨-, -, rfl⟩ | ⟨-, -, rfl⟩ | ⟨-, -, -, -, rfl⟩ <;> rfl
  · intro i s' h
    rcases h with h | h <;>
      rcases configure_eq_error h with ⟨-, he, rfl⟩ | ⟨-, -, rfl⟩ | ⟨-, -, -, he, rfl⟩ <;>
      first
        | exact ⟨rfl, rfl⟩
        | exact absurd he (by simp)
        | exact absurd he.symm (by simp)

/-- C3, witness: the amended theorem applied to a size-mismatch call
(`configure 3 ownerD s0`, state unchanged) and to the illegal-index call
`configure 1 ownerC sC0` (selection and count already overwritten). -/
theorem c3_witness :
    configure 3 ownerD s0 = .error (.sizeMismatch, s0) ∧
    (stC1.referencePos = sC0.referencePos) ∧
    (stC1.particles = ownerC.particles ∧ stC1.numParticles = ownerC.particles.length) := by
  refine ⟨(c3_theorem 3 ownerD s0).1 (by decide), ?_, ?_⟩
  · exact (c3_theorem 1 ownerC sC0).2.1 (.illegalIndex 2) stC1
      (by simp [configure, validate, ownerC, sC0, stC1])
  · exact (c3_theorem 1 ownerC sC0).2.2 2 stC1
      (Or.inl (by simp [configure, validate, ownerC, sC0, stC1]))

/-- C4: for every configured state and every current-position array with
`msd ≥ 1e-20`, `computeForce` writes, at each selected full-system index `i`,
`force[i] = -(centeredCurrent[i] - U·centeredReference[i]) / (rmsd · N)` —
where the rotated reference `U·centeredReference[i]` is `rotatedRef q`, the
rotation built from the dominant eigenvector quaternion `q` exactly as in the
source (the transposed application of the stored `U` array) — and leaves
every non-selected entry of the forces array exactly as supplied by the
caller. -/
theorem c4_theorem (n : ℕ) (owner : ConcertedRMSDForce) (sInit s : ImplState)
    (pos : List Vec3) (forces : List RVec3) (lam : ℚ) (q : Fin 4 → ℚ)
    (hcfg : configure n owner sInit = .ok s)
    (hF : forces.length = n)
    (heig : (Fmat s pos).mulVec q = lam • q)
    (hmax : IsMaxEigenvalue (FmatR s pos) ((lam : ℚ) : ℝ))
    (hm : (1e-20 : ℚ) ≤ msd s pos lam) :
    (∀ i ∈ s.particles,
        ((computeForce s pos forces lam q).2)[i.toNat]? =
          some (((centeredAt s pos i -
              rotatedRef q (atIdx s.referencePos i)).toR).neg.divR
            (Real.sqrt ((msd s pos lam : ℚ) : ℝ) * (s.numParticles : ℝ)))) ∧
    (∀ j : ℕ, (j : ℤ) ∉ s.particles →
        ((computeForce s pos forces lam q).2)[j]? = forces[j]?) := by
  obtain ⟨-, -, hrange, -⟩ := configure_ok_invariants hcfg
  have h2 : (computeForce s pos forces lam q).2 =
      s.particles.foldl (fun fs idx => setIdx fs idx (forceVal s pos lam q idx)) forces := by
    rw [computeForce_main (not_lt.mpr hm)]
  rw [h2]
  constructor
  · intro i hi
    have h0 : 0 ≤ i := (hrange i hi).1
    have hlt : i.toNat < forces.length := by
      have hub := (hrange i hi).2
      omega
    rw [foldl_setIdx_getElem?,
      if_pos ⟨by rwa [Int.toNat_of_nonneg h0], hlt⟩, Int.toNat_of_nonneg h0]
    rfl
  · intro j hj
    rw [foldl_setIdx_getElem?, if_neg (fun hc => hj hc.1)]

/-- C4, witness: the theorem applied to the configured state `stB` with the
non-degenerate current positions `posB` (`msd = 529/4`), the genuine dominant
eigenpair `(25, qB)` of `F`, and caller force array `finA`. -/
theorem c4_witness :
    configure 2 ownerB s0 = .ok stB ∧
    finA.length = 2 ∧
    (Fmat stB posB).mulVec qB = (25 : ℚ) • qB ∧
    IsMaxEigenvalue (FmatR stB posB) ((25 : ℚ) : ℝ) ∧
    (1e-20 : ℚ) ≤ msd stB posB 25 ∧
    ((∀ i ∈ stB.particles,
        ((computeForce stB posB finA 25 qB).2)[i.toNat]? =
          some (((centeredAt stB posB i -
              rotatedRef qB (atIdx stB.referencePos i)).toR).neg.divR
            (Real.sqrt ((msd stB posB 25 : ℚ) : ℝ) * (stB.numParticles : ℝ)))) ∧
     (∀ j : ℕ, (j : ℤ) ∉ stB.particles →
        ((computeForce stB posB finA 25 qB).2)[j]? = finA[j]?)) :=
  ⟨confB_eval, by simp [finA], mulVecB_eval,
   by rw [show ((25 : ℚ) : ℝ) = 25 by norm_num]; exact maxEigenB,
   by rw [msdB_eval]; norm_num,
   c4_theorem 2 ownerB s0 stB posB finA 25 qB confB_eval (by simp [finA]) mulVecB_eval
     (by rw [show ((25 : ℚ) : ℝ) = 25 by norm_num]; exact maxEigenB)
     (by rw [msdB_eval]; norm_num)⟩

/-- C5: for every configured state and every current-position array with
`msd ≥ 1e-20`, `computeForce` returns
`rmsd = sqrt(max(0, (Σ‖centeredCurrent‖² + Σ‖centeredReference‖² − 2·λ) / N))`
where `λ` is the largest eigenvalue of the quaternion matrix `F` built from
the correlation matrix `R` (`corrR`, the sum over selected particles). -/
theorem c5_theorem (n : ℕ) (owner : ConcertedRMSDForce) (sInit s : ImplState)
    (pos : List Vec3) (forces : List RVec3) (lam : ℚ) (q : Fin 4 → ℚ)
    (hcfg : configure n owner sInit = .ok s)
    (heig : (Fmat s pos).mulVec q = lam • q)
    (hmax : IsMaxEigenvalue (FmatR s pos) ((lam : ℚ) : ℝ))
    (hm : (1e-20 : ℚ) ≤ msd s pos lam) :
    (computeForce s pos forces lam q).1 =
      Real.sqrt (max 0
        (((sumCurSq s pos + sumRefSq s - 2 * lam) / (s.numParticles : ℚ) : ℚ) : ℝ)) := by
  have h1 : (computeForce s pos forces lam q).1 = Real.sqrt ((msd s pos lam : ℚ) : ℝ) := by
    rw [computeForce_main (not_lt.mpr hm)]
  have hval : ((sumCurSq s pos + sumRefSq s - 2 * lam) / (s.numParticles : ℚ) : ℚ)
      = msd s pos lam := by
    rw [msd, sumSq_split]
  rw [h1, hval, max_eq_right]
  exact_mod_cast le_trans (by norm_num) hm

/-- C5, witness: the theorem applied to the configured state `stB` and
positions `posB`: the returned scalar is `sqrt(max(0, 529/4)) = 23/2`. -/
theorem c5_witness :
    configure 2 ownerB s0 = .ok stB ∧
    (1e-20 : ℚ) ≤ msd stB posB 25 ∧
    (computeForce stB posB finA 25 qB).1 =
      Real.sqrt (max 0
        (((sumCurSq stB posB + sumRefSq stB - 2 * 25) / (stB.numParticles : ℚ) : ℚ) : ℝ)) :=
  ⟨confB_eval, by rw [msdB_eval]; norm_num,
   c5_theorem 2 ownerB s0 stB posB finA 25 qB confB_eval mulVecB_eval
     (by rw [show ((25 : ℚ) : ℝ) = 25 by norm_num]; exact maxEigenB)
     (by rw [msdB_eval]; norm_num)⟩

/-- C6: `configure` raises an error **iff** the reference position count
differs from the system particle count, or some selection index is outside
`[0, systemParticleCount)`, or some selection index repeats; moreover each
index error carries the offending index, rendered verbatim in the exception
message. -/
theorem c6_theorem (n : ℕ) (owner : ConcertedRMSDForce) (s : ImplState) :
    ((∃ e s', configure n owner s = .error (e, s')) ↔
      (owner.referencePositions.length ≠ n ∨
       (∃ i ∈ owner.particles, i < 0 ∨ (n : ℤ) ≤ i) ∨
       ¬ owner.particles.Nodup)) ∧
    (∀ i s', configure n owner s = .error (.illegalIndex i, s') →
      i ∈ owner.particles ∧ (i < 0 ∨ (n : ℤ) ≤ i) ∧
      (ImplError.illegalIndex i).message =
        "ConcertedRMSDForce: Illegal particle index for RMSD: " ++ toString i) ∧
    (∀ i s', configure n owner s = .error (.duplicateIndex i, s') →
      i ∈ owner.particles ∧ ¬ owner.particles.Nodup ∧
      (ImplError.duplicateIndex i).message =
        "ConcertedRMSDForce: Duplicated particle index for RMSD: " ++ toString i) := by
  refine ⟨⟨?_, ?_⟩, ?_, ?_⟩
  · rintro ⟨e, s', he⟩
    rcases configure_eq_error he with ⟨h1, -, -⟩ | ⟨h1, h2, -⟩ | ⟨h1, h2, h3, -, -⟩
    · exact Or.inl h1
    · rcases validate_some_kinds n owner.particles [] e h2 with ⟨i, rfl⟩ | ⟨i, rfl⟩
      · obtain ⟨hi, hr⟩ := validate_illegal n owner.particles [] i h2
        exact Or.inr (Or.inl ⟨i, hi, hr⟩)
      · obtain ⟨hi, hr⟩ := validate_dup n owner.particles [] i h2
        rcases hr with hr | hr
        · simp at hr
        · exact Or.inr (Or.inr hr)
    · obtain ⟨hall, -, -⟩ := (validate_eq_none_iff n owner.particles []).mp h2
      obtain ⟨v, hv⟩ := @sumRefs_eq_some owner.referencePositions owner.particles
        (fun i hi => ⟨(hall i hi).1, by
          have h1a := (hall i hi).1
          have h2a := (hall i hi).2
          omega⟩)
      rw [hv] at h3
      simp at h3
  · intro hcond
    by_cases hlen : owner.referencePositions.length ≠ n
    · exact ⟨.sizeMismatch, s, by rw [configure, if_pos hlen]⟩
    · have hne : validate n [] owner.particles ≠ none := by
        intro hnone
        obtain ⟨hall, hnd, -⟩ := (validate_eq_none_iff n owner.particles []).mp hnone
        rcases hcond with hc | hc | hc
        · exact hlen hc
        · obtain ⟨i, hi, hbad⟩ := hc
          rcases hbad with hb | hb
          · exact absurd (hall i hi).1 (by omega)
          · exact absurd (hall i hi).2 (by omega)
        · exact hc hnd
      cases hval : validate n [] owner.particles with
      | none => exact absurd hval hne
      | some e =>
        refine ⟨e, { s with particles := owner.particles,
                            numParticles := owner.particles.length }, ?_⟩
        rw [configure, if_neg hlen, hval]
  · intro i s' h
    rcases configure_eq_error h with ⟨-, he, -⟩ | ⟨-, h2, -⟩ | ⟨-, -, -, he, -⟩
    · simp at he
    · obtain ⟨hi, hr⟩ := validate_illegal n owner.particles [] i h2
      exact ⟨hi, hr, rfl⟩
    · simp at he
  · intro i s' h
    rcases configure_eq_error h with ⟨-, he, -⟩ | ⟨-, h2, -⟩ | ⟨-, -, -, he, -⟩
    · simp at he
    · obtain ⟨hi, hr⟩ := validate_dup n owner.particles [] i h2
      rcases hr with hr | hr
      · simp at hr
      · exact ⟨hi, hr, rfl⟩
    · simp at he

/-- C6, witness: the characterization applied to a size-mismatch call, an
illegal-index call (`ownerC`, index 2 in a 1-particle system) and a
duplicate-index call (`ownerJ`, selection `[1,1]`). -/
theorem c6_witness :
    (∃ e s', configure 3 ownerD s0 = .error (e, s')) ∧
    ((2 : ℤ) ∈ ownerC.particles ∧ ((2 : ℤ) < 0 ∨ (1 : ℤ) ≤ 2) ∧
      (ImplError.illegalIndex 2).message =
        "ConcertedRMSDForce: Illegal particle index for RMSD: " ++ toString (2 : ℤ)) ∧
    ((1 : ℤ) ∈ ownerJ.particles ∧ ¬ ownerJ.particles.Nodup ∧
      (ImplError.duplicateIndex 1).message =
        "ConcertedRMSDForce: Duplicated particle index for RMSD: " ++ toString (1 : ℤ)) := by
  refine ⟨(c6_theorem 3 ownerD s0).1.mpr (Or.inl (by decide)), ?_, ?_⟩
  · exact (c6_theorem 1 ownerC sC0).2.1 2 stC1
      (by simp [configure, validate, ownerC, sC0, stC1])
  · exact (c6_theorem 2 ownerJ s0).2.2 1
      ⟨[1, 1], 2, s0.referencePos⟩
      (by simp [configure, validate, ownerJ, s0])

/-- C7: when `updateParametersInContext` is called with an empty new selection
(and the reference length is unchanged, so the length guard passes), the
resulting stored selection is all particle indices of the stored reference
array, in index order — its length taken from the stored reference array
(`referencePos.size()`, source line 161), not from the system particle count
(which the update path never consults). -/
theorem c7_theorem (owner : ConcertedRMSDForce) (s : ImplState)
    (hempty : owner.particles = [])
    (hlen : s.referencePos.length = owner.referencePositions.length) :
    ∃ s', updateParametersInContext owner s = .ok s' ∧
      s'.particles = (List.range s.referencePos.length).map Int.ofNat := by
  have hp : (if owner.particles = []
             then (List.range s.referencePos.length).map Int.ofNat
             else owner.particles) = (List.range s.referencePos.length).map Int.ofNat :=
    if_pos hempty
  obtain ⟨total, htot⟩ := @sumRefs_eq_some owner.referencePositions
    ((List.range s.referencePos.length).map Int.ofNat)
    (by
      intro i hi
      obtain ⟨k, hk, rfl⟩ := List.mem_map.mp hi
      have hk2 := List.mem_range.mp hk
      constructor
      · exact Int.ofNat_nonneg k
      · simpa using by omega)
  refine ⟨⟨(List.range s.referencePos.length).map Int.ofNat,
           ((List.range s.referencePos.length).map Int.ofNat).length,
           owner.referencePositions.map
             (fun v => v -
               total.divQ ((((List.range s.referencePos.length).map Int.ofNat).length : ℕ) : ℚ))⟩,
         ?_, rfl⟩
  simp only [updateParametersInContext, if_neg (not_ne_iff.mpr hlen), hp, htot]

/-- C7, witness: updating with `ownerG` (empty selection, two reference
positions) defaults the stored selection to `[0, 1]`. -/
theorem c7_witness :
    ownerG.particles = [] ∧
    sG.referencePos.length = ownerG.referencePositions.length ∧
    ∃ s', updateParametersInContext ownerG sG = .ok s' ∧
      s'.particles = (List.range sG.referencePos.length).map Int.ofNat :=
  ⟨rfl, rfl, c7_theorem ownerG sG rfl rfl⟩

/-- C8: `updateParametersInContext` raises (the reference-size-changed
`ConfigurationError`) whenever the length of the owner's reference position
array differs from the stored one, and in that case the carried state is
exactly the state before the call — nothing was mutated. -/
theorem c8_theorem (owner : ConcertedRMSDForce) (s : ImplState)
    (hlen : s.referencePos.length ≠ owner.referencePositions.length) :
    updateParametersInContext owner s = .error (.sizeChanged, s) := by
  rw [updateParametersInContext, if_pos hlen]

/-- C8, witness: the theorem applied to the configured state `stA` with an
owner whose reference array shrank to zero length. -/
theorem c8_witness :
    stA.referencePos.length ≠ (⟨[], []⟩ : ConcertedRMSDForce).referencePositions.length ∧
    updateParametersInContext ⟨[], []⟩ stA = .error (.sizeChanged, stA) :=
  ⟨by decide, c8_theorem ⟨[], []⟩ stA (by decide)⟩

/-- C9, counterexample.  The claim says every error-free configuration
establishes a selection of size ≥ 1 (besides no-duplicates and in-range).
The source never rejects an empty selection in `initialize`: with
`ownerE` (empty selection) the call completes without any error and the
stored selection has size 0.  (In C++ the recentering then divides by zero,
producing NaN centres, still without raising; here `ℚ` division by zero
yields 0.)  Separately, `updateParametersInContext` performs no validation at
all (see C10), so it does not establish the no-duplicate/in-range parts
either. -/
theorem c9_counterexample :
    configure 1 ownerE s0 = .ok stE ∧ stE.particles.length = 0 := by
  refine ⟨?_, rfl⟩
  simp [configure, validate, sumRefs, getRef, ownerE, s0, stE]

/-- C9, amended: every error-free `configure` establishes that the stored
selection has no duplicate indices and that every index lies in
`[0, systemParticleCount)`; the size-≥-1 part of the invariant is **not**
established (an empty selection passes), and `updateParametersInContext`
establishes none of it. -/
theorem c9_theorem (n : ℕ) (owner : ConcertedRMSDForce) (s s' : ImplState)
    (h : configure n owner s = .ok s') :
    s'.particles.Nodup ∧ ∀ i ∈ s'.particles, 0 ≤ i ∧ i < (n : ℤ) :=
  ⟨(configure_ok_invariants h).2.1, (configure_ok_invariants h).2.2.1⟩

/-- C9, witness: the amended theorem applied to `configure 2 ownerB s0`. -/
theorem c9_witness :
    stB.particles.Nodup ∧ ∀ i ∈ stB.particles, 0 ≤ i ∧ i < ((2 : ℕ) : ℤ) :=
  c9_theorem 2 ownerB s0 stB confB_eval

/-- C10: `updateParametersInContext` performs no range or duplicate
validation.  With the reference length unchanged and a non-empty new
selection: any error it produces is the out-of-bounds-access marker (never a
`ConfigurationError`); if the selection contains an out-of-range index the
recentering loop does reach an out-of-bounds read of the stored reference
array (with the selection, count and reference already overwritten); and if
all indices are in range — duplicates allowed — the call succeeds. -/
theorem c10_theorem (owner : ConcertedRMSDForce) (s : ImplState)
    (hlen : s.referencePos.length = owner.referencePositions.length)
    (hne : owner.particles ≠ []) :
    (∀ e s', updateParametersInContext owner s = .error (e, s') → e = .oobAccess) ∧
    ((∃ i ∈ owner.particles, i < 0 ∨ (s.referencePos.length : ℤ) ≤ i) →
      updateParametersInContext owner s =
        .error (.oobAccess,
          ⟨owner.particles, owner.particles.length, owner.referencePositions⟩)) ∧
    ((∀ i ∈ owner.particles, 0 ≤ i ∧ i.toNat < s.referencePos.length) →
      ∃ s', updateParametersInContext owner s = .ok s') := by
  have hp : (if owner.particles = []
             then (List.range s.referencePos.length).map Int.ofNat
             else owner.particles) = owner.particles := if_neg hne
  refine ⟨?_, ?_, ?_⟩
  · intro e s' h
    rcases update_eq_error h with ⟨hc, -, -⟩ | ⟨-, he, -⟩
    · exact absurd hlen hc
    · exact he
  · rintro ⟨i, hi, hbad⟩
    have hnone : sumRefs owner.referencePositions owner.particles = none :=
      sumRefs_eq_none hi (by omega)
    rw [updateParametersInContext, if_neg (not_ne_iff.mpr hlen)]
    simp only [hp, hnone]
  · intro hall
    obtain ⟨total, htot⟩ := @sumRefs_eq_some owner.referencePositions owner.particles
      (fun i hi => ⟨(hall i hi).1, by have := (hall i hi).2; omega⟩)
    refine ⟨⟨owner.particles, owner.particles.length,
             owner.referencePositions.map
               (fun v => v - total.divQ ((owner.particles.length : ℕ) : ℚ))⟩, ?_⟩
    rw [updateParametersInContext, if_neg (not_ne_iff.mpr hlen)]
    simp only [hp, htot]

/-- C10, witness: with the 1-entry reference state `sF`, the new selection
`[0, 0, 5]` (duplicate 0, out-of-range 5) produces the out-of-bounds access —
not a `ConfigurationError` — and the duplicated in-range selection `[0, 0]`
of `ownerK` is accepted without any error. -/
theorem c10_witness :
    updateParametersInContext ownerF sF =
      .error (.oobAccess,
        ⟨ownerF.particles, ownerF.particles.length, ownerF.referencePositions⟩) ∧
    (∃ s', updateParametersInContext ownerK sF = .ok s') :=
  ⟨(c10_theorem ownerF sF rfl (by decide)).2.1 ⟨5, by decide, by decide⟩,
   (c10_theorem ownerK sF rfl (by decide)).2.2 (by decide)⟩
